import Mathlib

/-!
Shallow embedding of the indentation-aware source-builder core of
`src/framework.py` (classes `IndentManager`, `SourceBuilder`,
`PySourceBuilder`).  Python strings are Lean `String`s (lists of
characters); the mutable `level` counter (a Python `int`) is an `Int`;
the `StringIO` buffer is the `out : String` field.  Fallible operations
return `Except`; since Python exceptions leave the in-place mutations
performed so far visible to the caller, fallible operations on a builder
return `Except (PyErr × SourceBuilder) SourceBuilder`, carrying the
builder state at the moment the exception propagates.
-/

/-- Python exceptions that can arise in the embedded fragment.
`nameError s` models a `NameError` raised when the undefined name `s` is
evaluated; `valueError` models `ValueError` (raised by
`textwrap.TextWrapper._wrap_chunks` for a non-positive width). -/
inductive PyErr where
  | nameError (missing : String)
  | valueError (msg : String)
  deriving Repr, DecidableEq

/-- `s * n` for a Python string and a non-negative count
(`IndentManager.__str__` computes `self.indent_with * self.level`). -/
def strMul (s : String) : Nat → String
  | 0 => ""
  | n + 1 => s ++ strMul s n

/-- `IndentManager` (framework.py lines 15-68): `indent_with` is fixed at
construction, `level` is the mutable indentation depth (a Python `int`). -/
structure IndentManager where
  indent_with : String
  level : Int
  deriving Repr, DecidableEq

namespace IndentManager

/-- `IndentManager.__str__`: `self.indent_with * self.level`.  Python
string repetition with a non-positive count yields the empty string,
hence `Int.toNat`. -/
def str (im : IndentManager) : String :=
  strMul im.indent_with im.level.toNat

/-- `IndentManager.indent`: `self.level = self.level + 1` (the `return
self` only enables chaining and is not part of the state change).
`__call__` and `__enter__` delegate to this. -/
def indent (im : IndentManager) : IndentManager :=
  { im with level := im.level + 1 }

/-- `IndentManager.dedent`: at level 0 the source executes
`raise DedentException(...)`, but the name `DedentException` is defined
nowhere in framework.py and is not imported, so evaluating it raises
`NameError` (and no mutation happens); otherwise `self.level =
self.level - 1`. -/
def dedent (im : IndentManager) : Except PyErr IndentManager :=
  if im.level = 0 then .error (.nameError "DedentException")
  else .ok { im with level := im.level - 1 }

/-- `IndentManager.reset`: `self.level = 0`. -/
def reset (im : IndentManager) : IndentManager :=
  { im with level := 0 }

end IndentManager

/-- `SourceBuilder` (framework.py lines 71-166): a `StringIO` buffer
(`out`) plus an owned `IndentManager`. -/
structure SourceBuilder where
  out : String
  indent : IndentManager
  deriving Repr, DecidableEq

/-- Result of a builder operation that may raise: on error the builder
state at the moment the exception propagates is carried along, because
Python's in-place mutations are not rolled back. -/
abbrev BResult := Except (PyErr × SourceBuilder) SourceBuilder

namespace SourceBuilder

/-- `SourceBuilder.__init__`: fresh `StringIO` and an `IndentManager`
with the given `indent_with` (default in the source: four spaces). -/
def init (indent_with : String) : SourceBuilder :=
  { out := "", indent := { indent_with := indent_with, level := 0 } }

/-- `SourceBuilder.write`: `self._out.write(str(self.indent));
self._out.write(code)`. -/
def write (sb : SourceBuilder) (code : String) : SourceBuilder :=
  { sb with out := sb.out ++ sb.indent.str ++ code }

/-- `SourceBuilder.writeln`: `if code: self.write(code)` (a Python string
is truthy iff non-empty) then `self._out.write('\n')`. -/
def writeln (sb : SourceBuilder) (code : String) : SourceBuilder :=
  let sb1 := if code = "" then sb else sb.write code
  { sb1 with out := sb1.out ++ "\n" }

/-- `SourceBuilder.dedent`: pass-through to `self.indent.dedent()`. -/
def dedent (sb : SourceBuilder) : BResult :=
  match sb.indent.dedent with
  | .ok im => .ok { sb with indent := im }
  | .error e => .error (e, sb)

/-- `SourceBuilder.end`: `self.indent.reset(); return
self._out.getvalue()` — the buffer is not cleared.  (`end` is a Lean
keyword, hence the trailing underscore.) -/
def end_ (sb : SourceBuilder) : String × SourceBuilder :=
  (sb.out, { sb with indent := sb.indent.reset })

/-- `SourceBuilder.truncate`: close the buffer, replace it with a fresh
`StringIO`, and `self.indent.reset()`. -/
def truncate (sb : SourceBuilder) : SourceBuilder :=
  { out := "", indent := sb.indent.reset }

/-- `SourceBuilder.close`: calls `self.truncate()`. -/
def close (sb : SourceBuilder) : SourceBuilder :=
  sb.truncate

end SourceBuilder

/-- `for i in range(lines_before): self.writeln()` at the start of
`PySourceBuilder.block`. -/
def nBlank : Nat → SourceBuilder → SourceBuilder
  | 0, sb => sb
  | n + 1, sb => nBlank n (sb.writeln "")

/-- `PySourceBuilder.block` (a `@contextmanager` generator): write the
blank lines, write the header via `writeln`, then run the caller's body
inside `with self.indent:`.  On a normal exit of the body the `with`
exits and dedents; when the body raises, the exception is thrown into
the generator at the `yield`, the `with` block still dedents on the way
out, and the exception propagates (if the dedent itself raises, that
exception replaces the original, per `with`-statement semantics). -/
def PySourceBuilder.block (code : String) (lines_before : Nat)
    (body : SourceBuilder → BResult) (sb : SourceBuilder) : BResult :=
  let sb1 := (nBlank lines_before sb).writeln code
  let sb2 := { sb1 with indent := sb1.indent.indent }
  match body sb2 with
  | .ok sb3 =>
    match sb3.indent.dedent with
    | .ok im => .ok { sb3 with indent := im }
    | .error e => .error (e, sb3)
  | .error (e, sb3) =>
    match sb3.indent.dedent with
    | .ok im => .error (e, { sb3 with indent := im })
    | .error e2 => .error (e2, sb3)

/-- Builder state carried by a `BResult`, whether the operation returned
normally or an exception propagated. -/
def stateOf : BResult → SourceBuilder
  | .ok sb => sb
  | .error (_, sb) => sb

/-!
Driver programs over one `IndentManager` (for the balance claim): a
sequence of `indent()` calls matched by `dedent()` calls (`manual`),
scoped `with`-blocks (`scope`, i.e. `__enter__`/`__exit__`), sequencing,
and a point where the enclosed generation logic raises an error that
propagates (`err`).
-/

/-- Driver call sequences on one `IndentManager`. -/
inductive Prog where
  | nil
  | err
  | seq (p q : Prog)
  | manual (p : Prog)
  | scope (p : Prog)
  deriving Repr, DecidableEq

/-- Run a driver program.  The `Bool` is `true` for normal completion and
`false` when an exception is propagating; an exception skips the rest of
a sequence and skips the matching manual `dedent()` (plain straight-line
code has no cleanup), whereas a scoped block's `__exit__` dedent runs on
both exit paths.  If the `__exit__` dedent itself raises, that exception
propagates (state unchanged, since the failed dedent mutates nothing). -/
def runProg : Prog → IndentManager → Bool × IndentManager
  | .nil, im => (true, im)
  | .err, im => (false, im)
  | .seq p q, im =>
    let r := runProg p im
    if r.1 then runProg q r.2 else r
  | .manual p, im =>
    let r := runProg p im.indent
    if r.1 then
      match r.2.dedent with
      | .ok im2 => (true, im2)
      | .error _ => (false, r.2)
    else r
  | .scope p, im =>
    let r := runProg p im.indent
    match r.2.dedent with
    | .ok im2 => (r.1, im2)
    | .error _ => (false, r.2)

/-- A program that raises no error anywhere. -/
def errFree : Prog → Bool
  | .nil => true
  | .err => false
  | .seq p q => errFree p && errFree q
  | .manual p => errFree p
  | .scope p => errFree p

/-- Well-formed driver programs for the balance property: errors may be
raised anywhere inside scoped blocks, but a manual `indent()`/`dedent()`
pair has no cleanup on unwinding, so its body must be error-free. -/
def goodProg : Prog → Bool
  | .nil => true
  | .err => true
  | .seq p q => goodProg p && goodProg q
  | .manual p => errFree p
  | .scope p => goodProg p

/-!
Model of the pieces of the Python standard library that
`PySourceBuilder.docstring` uses: `str.splitlines`, `str.strip`,
`textwrap.dedent`, and `textwrap.wrap` with an all-default
`TextWrapper` (CPython 3.6-3.9: `expand_tabs`, `replace_whitespace`,
`drop_whitespace`, `break_long_words`, `break_on_hyphens` all true,
`tabsize` 8, no indents, `max_lines` None).
-/

/-- The characters of Python's `str.isspace()` / `str.strip()`
whitespace set. -/
def pyIsStrSpace (c : Char) : Bool :=
  [' ', '\t', '\n', '\r', '\x0b', '\x0c',
   '\x1c', '\x1d', '\x1e', '\x1f', '\x85', '\xa0', '\u1680',
   '\u2000', '\u2001', '\u2002', '\u2003', '\u2004', '\u2005',
   '\u2006', '\u2007', '\u2008', '\u2009', '\u200a',
   '\u2028', '\u2029', '\u202f', '\u205f', '\u3000'].contains c

/-- The explicit whitespace class `textwrap._whitespace` =
`'\t\n\x0b\x0c\r '` used (escaped) inside `TextWrapper.wordsep_re` and
by `_munge_whitespace`'s translation table. -/
def pyPatternWs (c : Char) : Bool :=
  [' ', '\t', '\n', '\x0b', '\x0c', '\r'].contains c

/-- Regex `\w` (word character).  Modelled for ASCII text as
alphanumerics plus underscore; the inputs of this development are
ASCII. -/
def pyWord (c : Char) : Bool :=
  c.isAlphanum || c = '_'

/-- Regex `[^\d\W]` (`letter` in `TextWrapper.wordsep_re`): a word
character that is not a digit. -/
def pyLetter (c : Char) : Bool :=
  pyWord c && !c.isDigit

/-- Regex `[\w!"'&.,?]` (`word_punct` in `TextWrapper.wordsep_re`). -/
def pyWordPunct (c : Char) : Bool :=
  pyWord c || ['!', '"', '\'', '&', '.', ',', '?'].contains c

/-- Line-break characters recognised by `str.splitlines` (besides the
`\r\n` pair, which is handled in `pySplitlinesGo`). -/
def pyLineBreak (c : Char) : Bool :=
  ['\n', '\r', '\x0b', '\x0c', '\x1c', '\x1d', '\x1e',
   '\x85', '\u2028', '\u2029'].contains c

/-- `str.splitlines()` scanner: `acc` is the current line reversed; a
trailing line is kept only if non-empty, and `\r\n` counts as one
break. -/
def pySplitlinesGo (acc : List Char) : List Char → List (List Char)
  | [] => if acc = [] then [] else [acc.reverse]
  | '\r' :: '\n' :: cs => acc.reverse :: pySplitlinesGo [] cs
  | c :: cs =>
    if pyLineBreak c then acc.reverse :: pySplitlinesGo [] cs
    else pySplitlinesGo (c :: acc) cs

/-- `str.splitlines()` (keepends false). -/
def pySplitlines (s : String) : List String :=
  (pySplitlinesGo [] s.data).map String.mk

/-- `str.strip()` with no argument: remove leading and trailing
Python-whitespace characters. -/
def pyStrip (s : String) : String :=
  String.mk (((s.data.dropWhile pyIsStrSpace).reverse.dropWhile
    pyIsStrSpace).reverse)

/-- Split a string at every `'\n'`, keeping empty pieces — the line view
under which `re.MULTILINE` anchors operate in `textwrap.dedent`. -/
def splitNl (acc : List Char) : List Char → List (List Char)
  | [] => [acc.reverse]
  | '\n' :: cs => acc.reverse :: splitNl [] cs
  | c :: cs => splitNl (c :: acc) cs

/-- An indentation character for `textwrap.dedent`'s regexes
(`[ \t]`). -/
def isIndentChar (c : Char) : Bool :=
  c = ' ' || c = '\t'

/-- Longest common prefix of two character lists; `textwrap.dedent`'s
margin-narrowing loop (`startswith` checks, else cut at the first
mismatching position) computes exactly this. -/
def marginMeet : List Char → List Char → List Char
  | a :: as, b :: bs => if a = b then a :: marginMeet as bs else []
  | _, _ => []

/-- `textwrap.dedent(text)`: blank the lines that are entirely
`[ \t]+` (`_whitespace_only_re.sub('', text)`), collect each remaining
line's leading `[ \t]*` run when it is followed by a character outside
`[ \t\n]` (`_leading_whitespace_re.findall`), fold them to the common
margin, and strip that margin from the start of every line that carries
it. -/
def dedentPy (text : String) : String :=
  let lines := splitNl [] text.data
  let lines1 := lines.map fun l =>
    if l ≠ [] && l.all isIndentChar then [] else l
  let indents := lines1.filterMap fun l =>
    if l.dropWhile isIndentChar ≠ [] then some (l.takeWhile isIndentChar)
    else none
  let margin := indents.foldl
    (fun m ind => match m with
      | none => some ind
      | some mg =>
        if mg.isPrefixOf ind then some mg
        else if ind.isPrefixOf mg then some ind
        else some (marginMeet mg ind))
    none
  let lines2 := match margin with
    | some m =>
      if m = [] then lines1
      else lines1.map fun l => if m.isPrefixOf l then l.drop m.length else l
    | none => lines1
  String.mk (List.intercalate ['\n'] lines2)

/-- `str.expandtabs(8)` (first step of
`TextWrapper._munge_whitespace`): each tab becomes spaces up to the next
multiple of 8; `\n` and `\r` reset the column. -/
def expandtabsGo (col : Nat) : List Char → List Char
  | [] => []
  | c :: cs =>
    if c = '\t' then
      List.replicate (8 - col % 8) ' ' ++ expandtabsGo (col + (8 - col % 8)) cs
    else if c = '\n' || c = '\r' then c :: expandtabsGo 0 cs
    else c :: expandtabsGo (col + 1) cs

/-- `TextWrapper._munge_whitespace`: expand tabs, then translate each
character of `_whitespace` to a space. -/
def munge (cs : List Char) : List Char :=
  (expandtabsGo 0 cs).map fun c => if pyPatternWs c then ' ' else c

/-- Length of the leading run of `'-'` characters. -/
def hyphenRun (cs : List Char) : Nat :=
  (cs.takeWhile (· = '-')).length

/-- The lookbehind of the `wordsep_re` "hyphenated word" branch just
after its `-` is consumed — `(?<=[^\d\W]{2}-)|(?<=[^\d\W]-[^\d\W]-)` —
and also (it is the same shape) its lookahead `(?=[^\d\W]-?[^\d\W])`.
The argument is the adjacent text: reversed left context for the
lookbehind (with the consumed `-` already stripped), forward text for
the lookahead. -/
def hyphenCtx : List Char → Bool
  | a :: b :: rest =>
    pyLetter a && (pyLetter b ||
      (b = '-' && (match rest with | c :: _ => pyLetter c | [] => false)))
  | _ => false

/-- The em-dash lookahead `(?=-{2,}\w)` and, equally, the body of the
top-level em-dash branch `-{2,}(?=\w)`: a maximal run of at least two
hyphens followed by a word character (shorter runs cannot satisfy the
`\w` lookahead, since `-` is not a word character). -/
def emLook (cs : List Char) : Bool :=
  let m := hyphenRun cs
  2 ≤ m && (match cs.drop m with | c :: _ => pyWord c | [] => false)

/-- The lazy word branch of `wordsep_re`:
`[^\t\n\x0b\x0c\r ]+?` followed by one of, tried in this order, the
hyphenated-word break (which consumes the hyphen), the end-of-word
lookahead `(?=[\t\n\x0b\x0c\r ]|\Z)`, or the em-dash lookahead.
`ctx` is the reversed text to the left of the scan point (consumed
characters first, then the text before the match — regex lookbehinds may
look past the start of the match), `n ≥ 1` is the number of characters
consumed so far, `rest` the text after the scan point.  Laziness means
the shortest `n` whose continuation succeeds wins. -/
def a3go (ctx : List Char) (n : Nat) : List Char → Nat
  | [] => n
  | c :: rest =>
    if c = '-' && hyphenCtx ctx && hyphenCtx rest then n + 1
    else if pyPatternWs c then n
    else if (match ctx with | p :: _ => pyWordPunct p | [] => false)
        && emLook (c :: rest) then n
    else a3go (c :: ctx) (n + 1) rest

/-- Length of the `wordsep_re` match starting at the head of `cs`
(`prevRev` is the reversed text before the match).  Branch order as in
the pattern: whitespace run, em-dash between words, lazy word.  One of
them always succeeds on a non-empty input, so `re.split` produces no
gap pieces and the matches tile the text. -/
def matchLen (prevRev : List Char) : List Char → Nat
  | [] => 0
  | c :: rest =>
    if pyPatternWs c then 1 + (rest.takeWhile pyPatternWs).length
    else if (match prevRev with | p :: _ => pyWordPunct p | [] => false)
        && emLook (c :: rest) then hyphenRun (c :: rest)
    else a3go (c :: prevRev) 1 rest

/-- `TextWrapper._split`: cut the text into the successive `wordsep_re`
matches.  Every match consumes at least one character, so writing the
step as "one character plus `matchLen - 1` more" is exact and makes the
recursion structurally decreasing; `fuel` starts at `length + 1`, more
than the number of matches, so it never runs out. -/
def splitGo : Nat → List Char → List Char → List (List Char)
  | 0, _, _ => []
  | _ + 1, _, [] => []
  | fuel + 1, prevRev, c :: rest =>
    let e := matchLen prevRev (c :: rest) - 1
    let tok := c :: rest.take e
    tok :: splitGo fuel (tok.reverse ++ prevRev) (rest.drop e)

/-- `TextWrapper._split` on munged text (the `[c for c in chunks if c]`
filter is a no-op here: the matches tile the text, so there are no gap
pieces, and every match is non-empty). -/
def splitChunks (cs : List Char) : List (List Char) :=
  splitGo (cs.length + 1) [] cs

/-- `chunk.strip() == ''`: the chunk is all Python whitespace (true for
the empty chunk). -/
def isWsChunk (c : List Char) : Bool :=
  c.all pyIsStrSpace

/-- Total length of a chunk list. -/
def sumLen (l : List (List Char)) : Nat :=
  (l.map List.length).sum

/-- The greedy inner loop of `TextWrapper._wrap_chunks`: pop chunks onto
the current line while the running length stays within `w`.  Returns
(taken chunks, running length, remaining chunks). -/
def takeChunks (w : Nat) (cl : Nat) :
    List (List Char) → List (List Char) × Nat × List (List Char)
  | [] => ([], cl, [])
  | c :: cs =>
    if cl + c.length ≤ w then
      let r := takeChunks w (cl + c.length) cs
      (c :: r.1, r.2.1, r.2.2)
    else ([], cl, c :: cs)

/-- Drop a final all-whitespace piece from the assembled line
(`if cur_line and cur_line[-1].strip() == '': del cur_line[-1]`). -/
def dropTrailWs (l : List (List Char)) : List (List Char) :=
  match l.reverse with
  | [] => []
  | x :: xs => if isWsChunk x then xs.reverse else l

/-- Index of the last `'-'` in the list, if any (`chunk.rfind('-', 0,
space_left)` is `rfindHyphen (chunk.take space_left)`, with `none` for
Python's `-1`). -/
def rfindHyphen (pre : List Char) : Option Nat :=
  match pre.reverse.findIdx? (· = '-') with
  | some j => some (pre.length - 1 - j)
  | none => none

/-- `TextWrapper._handle_long_word`'s cut point (CPython 3.10+): start
from `space_left = width - cur_len` (the `width < 1` special case is
unreachable, `_wrap_chunks` having rejected non-positive widths, and
`len(chunk) > space_left` always holds at the call site since
`len(chunk) > width ≥ space_left`); with `break_on_hyphens`, break after
the last hyphen found before `space_left` provided something before it
is not a hyphen. -/
def longWordEnd (spaceLeft : Nat) (c : List Char) : Nat :=
  match rfindHyphen (c.take spaceLeft) with
  | some h => if 0 < h && (c.take h).any (fun x => x ≠ '-') then h + 1
              else spaceLeft
  | none => spaceLeft

/-- Assemble one output line from `chunks` (already past the
leading-whitespace drop): greedy fill, then `_handle_long_word` when the
next chunk alone exceeds `w` (defaults: `break_long_words`, so the chunk
is cut at `longWordEnd`), then the trailing-whitespace drop.  Returns
the joined line and the remaining chunks. -/
def lineStep (w : Nat) (chunks : List (List Char)) :
    List Char × List (List Char) :=
  let t := takeChunks w 0 chunks
  let pieces :=
    match t.2.2 with
    | c :: cs =>
      if w < c.length then
        let e := longWordEnd (w - t.2.1) c
        (t.1 ++ [c.take e], c.drop e :: cs)
      else (t.1, c :: cs)
    | [] => (t.1, [])
  ((dropTrailWs pieces.1).flatten, pieces.2)

/-- The outer loop of `TextWrapper._wrap_chunks` (no indents, `max_lines`
None): per iteration, drop a leading all-whitespace chunk unless no line
has been emitted yet (`if ... chunks[-1].strip() == '' and lines`),
build one line, and emit it if non-empty.  Each iteration removes a
chunk or shortens the head chunk, so `sumLen + length + 1` fuel is never
exhausted. -/
def wrapLoop (w : Nat) : Nat → Bool → List (List Char) → List (List Char)
  | 0, _, _ => []
  | _ + 1, _, [] => []
  | fuel + 1, first, c :: cs =>
    let chunks1 := if !first && isWsChunk c then cs else c :: cs
    let s := lineStep w chunks1
    if s.1 = [] then wrapLoop w fuel first s.2
    else s.1 :: wrapLoop w fuel false s.2

/-- `textwrap.wrap(text, width)` with an all-default `TextWrapper`:
munge the whitespace, split into chunks, and wrap greedily.
`_wrap_chunks` raises `ValueError` when the width is not positive. -/
def wrapPy (width : Int) (text : String) : Except PyErr (List String) :=
  if width ≤ 0 then
    .error (.valueError "invalid width (must be greater than 0)")
  else
    let chunks := splitChunks (munge text.data)
    .ok ((wrapLoop width.toNat (sumLen chunks + chunks.length + 1)
      true chunks).map String.mk)

/-- The per-line loop of `PySourceBuilder.docstring`'s multi-line branch:
`if not line.strip(): self.writeln()` and then, unconditionally,
`for wrap in textwrap.wrap(line, max_width): self.writeln(wrap)` (the
loop is not an `else`; for a blank line the wrap yields no segments).
A `ValueError` from `wrap` propagates with the writes made so far. -/
def docstringGo (maxw : Int) : List String → SourceBuilder → BResult
  | [], sb => .ok sb
  | line :: rest, sb =>
    let sb1 := if pyStrip line = "" then sb.writeln "" else sb
    match wrapPy maxw line with
    | .error e => .error (e, sb1)
    | .ok wraps =>
      docstringGo maxw rest (wraps.foldl (fun b seg => b.writeln seg) sb1)

/-- `PySourceBuilder.docstring` (framework.py lines 209-231):
`doc = textwrap.dedent(doc).strip()`; `max_width = width -
len(str(self.indent))`; if the text is a single line and
`len(doc) < max_width - len(delimiter) * 2`, write
`delimiter + doc + delimiter` on one line; otherwise write the
delimiter, every line's wrap, a blank line, and the closing
delimiter. -/
def PySourceBuilder.docstring (doc delimiter : String) (width : Int)
    (sb : SourceBuilder) : BResult :=
  let d := pyStrip (dedentPy doc)
  let maxw : Int := width - (sb.indent.str.length : Int)
  let lines := pySplitlines d
  if lines.length = 1 ∧ (d.length : Int) < maxw - (delimiter.length : Int) * 2
  then .ok (sb.writeln (delimiter ++ d ++ delimiter))
  else
    match docstringGo maxw lines (sb.writeln delimiter) with
    | .error es => .error es
    | .ok sb1 => .ok ((sb1.writeln "").writeln delimiter)

/-!
Helper lemmas.
-/

/-- `writeln` never touches the `IndentManager`. -/
theorem writeln_indent (sb : SourceBuilder) (code : String) :
    (sb.writeln code).indent = sb.indent := by
  by_cases h : code = "" <;>
    simp [SourceBuilder.writeln, SourceBuilder.write, h]

/-- Folding `writeln` over a list of segments never touches the
`IndentManager`. -/
theorem foldl_writeln_indent (l : List String) : ∀ sb : SourceBuilder,
    (l.foldl (fun b seg => b.writeln seg) sb).indent = sb.indent := by
  induction l with
  | nil => intro sb; rfl
  | cons x xs ih =>
    intro sb
    rw [List.foldl_cons, ih, writeln_indent]

/-- The docstring line loop never touches the `IndentManager`, on normal
return and on error propagation alike. -/
theorem docstringGo_indent (maxw : Int) : ∀ (lines : List String)
    (sb : SourceBuilder),
    (stateOf (docstringGo maxw lines sb)).indent = sb.indent := by
  intro lines
  induction lines with
  | nil => intro sb; rfl
  | cons x xs ih =>
    intro sb
    simp only [docstringGo]
    cases hw : wrapPy maxw x with
    | error e =>
      by_cases hb : pyStrip x = "" <;>
        simp [hw, hb, stateOf, writeln_indent]
    | ok wraps =>
      by_cases hb : pyStrip x = "" <;>
        simp [hw, hb, ih, foldl_writeln_indent, writeln_indent]

/-- The blank-line loop of `block` only appends newlines. -/
theorem nBlank_out (n : Nat) : ∀ sb : SourceBuilder,
    (nBlank n sb).out = sb.out ++ strMul "\n" n := by
  induction n with
  | zero => intro sb; simp [nBlank, strMul]
  | succ n ih =>
    intro sb
    rw [nBlank, ih]
    simp [SourceBuilder.writeln, strMul, String.append_assoc]

/-- The blank-line loop of `block` never touches the `IndentManager`. -/
theorem nBlank_indent (n : Nat) : ∀ sb : SourceBuilder,
    (nBlank n sb).indent = sb.indent := by
  induction n with
  | zero => intro sb; rfl
  | succ n ih => intro sb; rw [nBlank, ih, writeln_indent]

/-- `dedent` undoes `indent` when the starting level is non-negative. -/
theorem indent_dedent (im : IndentManager) (h : 0 ≤ im.level) :
    im.indent.dedent = .ok im := by
  cases im with
  | mk iw l =>
    have hne : ¬ (l + 1 = 0) := by simp at h; omega
    simp [IndentManager.indent, IndentManager.dedent, hne]

/-- An error-free program runs to normal completion and leaves the
`IndentManager` exactly as it was (balance on the happy path). -/
theorem errFree_run : ∀ p : Prog, errFree p = true →
    ∀ im : IndentManager, 0 ≤ im.level → runProg p im = (true, im) := by
  intro p
  induction p with
  | nil => intro _ im _; rfl
  | err => intro h; simp [errFree] at h
  | seq p q ihp ihq =>
    intro h im him
    rw [errFree, Bool.and_eq_true] at h
    simp [runProg, ihp h.1 im him, ihq h.2 im him]
  | manual p ih =>
    intro h im him
    rw [errFree] at h
    have h1 : 0 ≤ im.indent.level := by
      simp [IndentManager.indent]; omega
    simp [runProg, ih h im.indent h1, indent_dedent im him]
  | scope p ih =>
    intro h im him
    rw [errFree] at h
    have h1 : 0 ≤ im.indent.level := by
      simp [IndentManager.indent]; omega
    simp [runProg, ih h im.indent h1, indent_dedent im him]

/-- `sumLen` of a cons. -/
theorem sumLen_cons (c : List Char) (t : List (List Char)) :
    sumLen (c :: t) = c.length + sumLen t := by
  simp [sumLen]

/-- `sumLen` of appending one chunk. -/
theorem sumLen_append_one (t : List (List Char)) (c : List Char) :
    sumLen (t ++ [c]) = sumLen t + c.length := by
  simp [sumLen]

/-- The joined line has length `sumLen`. -/
theorem flatten_sumLen (l : List (List Char)) :
    l.flatten.length = sumLen l := by
  simp [sumLen, List.length_flatten]

/-- The greedy fill never pushes the running length past `w`. -/
theorem takeChunks_curLen_le (w : Nat) : ∀ (l : List (List Char)) (cl : Nat),
    cl ≤ w → (takeChunks w cl l).2.1 ≤ w := by
  intro l
  induction l with
  | nil => intro cl h; simpa [takeChunks] using h
  | cons c cs ih =>
    intro cl h
    by_cases hc : cl + c.length ≤ w <;> simp [takeChunks, hc]
    · exact ih _ hc
    · exact h

/-- The running length returned by the greedy fill is the invested start
plus the total length of the taken chunks. -/
theorem takeChunks_sum (w : Nat) : ∀ (l : List (List Char)) (cl : Nat),
    sumLen (takeChunks w cl l).1 + cl = (takeChunks w cl l).2.1 := by
  intro l
  induction l with
  | nil => intro cl; simp [takeChunks, sumLen]
  | cons c cs ih =>
    intro cl
    by_cases hc : cl + c.length ≤ w <;> simp [takeChunks, hc]
    · have := ih (cl + c.length)
      rw [sumLen_cons]
      omega
    · simp [sumLen]

/-- Dropping a trailing whitespace piece cannot lengthen the line. -/
theorem sumLen_dropTrailWs_le (l : List (List Char)) :
    sumLen (dropTrailWs l) ≤ sumLen l := by
  unfold dropTrailWs
  cases h : l.reverse with
  | nil => simp [sumLen]
  | cons x xs =>
    have hl : l = xs.reverse ++ [x] := by
      rw [← List.reverse_reverse l, h]; simp
    show sumLen (if isWsChunk x = true then xs.reverse else l) ≤ sumLen l
    by_cases hx : isWsChunk x = true
    · rw [if_pos hx, hl, sumLen_append_one]; omega
    · rw [if_neg hx]

/-- A found hyphen index lies inside the searched list. -/
theorem rfindHyphen_lt (l : List Char) (h : Nat) :
    rfindHyphen l = some h → h < l.length := by
  unfold rfindHyphen
  cases hf : l.reverse.findIdx? (fun x => x = '-') with
  | none => intro hx; cases hx
  | some j =>
    intro hx
    injection hx with hx
    cases l with
    | nil => simp at hf
    | cons a as => simp only [List.length_cons] at hx ⊢; omega

/-- The long-word cut point never exceeds the space left on the line. -/
theorem longWordEnd_le (s : Nat) (c : List Char) : longWordEnd s c ≤ s := by
  unfold longWordEnd
  cases h : rfindHyphen (c.take s) with
  | none => simp
  | some hh =>
    have hlt := rfindHyphen_lt (c.take s) hh h
    have hlen : (c.take s).length ≤ s := c.length_take_le s
    show (if (0 < hh && (c.take hh).any fun x => x ≠ '-') = true
        then hh + 1 else s) ≤ s
    by_cases hcond : (0 < hh && (c.take hh).any fun x => x ≠ '-') = true
    · rw [if_pos hcond]; omega
    · rw [if_neg hcond]

/-- One assembled output line fits in the width. -/
theorem lineStep_len (w : Nat) (chunks : List (List Char)) :
    (lineStep w chunks).1.length ≤ w := by
  unfold lineStep
  have hcl : (takeChunks w 0 chunks).2.1 ≤ w :=
    takeChunks_curLen_le w chunks 0 (Nat.zero_le w)
  have hsum : sumLen (takeChunks w 0 chunks).1 + 0
      = (takeChunks w 0 chunks).2.1 := takeChunks_sum w chunks 0
  cases hr : (takeChunks w 0 chunks).2.2 with
  | nil =>
    simp only [hr]
    rw [flatten_sumLen]
    have := sumLen_dropTrailWs_le (takeChunks w 0 chunks).1
    omega
  | cons c cs =>
    by_cases hw : w < c.length <;> simp only [hr, hw, if_true, if_false]
    · rw [flatten_sumLen]
      have h1 := sumLen_dropTrailWs_le
        ((takeChunks w 0 chunks).1 ++ [c.take (longWordEnd (w - (takeChunks w 0 chunks).2.1) c)])
      rw [sumLen_append_one] at h1
      have h2 : (c.take (longWordEnd (w - (takeChunks w 0 chunks).2.1) c)).length
          ≤ longWordEnd (w - (takeChunks w 0 chunks).2.1) c :=
        c.length_take_le _
      have h3 := longWordEnd_le (w - (takeChunks w 0 chunks).2.1) c
      omega
    · rw [flatten_sumLen]
      have := sumLen_dropTrailWs_le (takeChunks w 0 chunks).1
      omega

/-- Every line emitted by the wrap loop fits in the width. -/
theorem wrapLoop_len (w : Nat) : ∀ (fuel : Nat) (first : Bool)
    (chunks : List (List Char)) (l : List Char),
    l ∈ wrapLoop w fuel first chunks → l.length ≤ w := by
  intro fuel
  induction fuel with
  | zero => intro first chunks l h; simp [wrapLoop] at h
  | succ fuel ih =>
    intro first chunks l h
    cases chunks with
    | nil => simp [wrapLoop] at h
    | cons c cs =>
      simp only [wrapLoop] at h
      by_cases hnil :
          (lineStep w (if !first && isWsChunk c then cs else c :: cs)).1 = []
      · rw [if_pos hnil] at h
        exact ih _ _ _ h
      · rw [if_neg hnil] at h
        rcases List.mem_cons.mp h with h | h
        · rw [h]; exact lineStep_len w _
        · exact ih _ _ _ h

/-!
Claim theorems.
-/

/-- C1: for every sequence of `indent()` calls and scoped-block entries
with matching exits on one `IndentManager` (errors propagating from
inside scoped blocks allowed; manual pairs error-free), the final depth
equals the initial depth — the scoped exit dedents by exactly one on
every exit path, including error propagation. -/
theorem claim_C1 : ∀ p : Prog, goodProg p = true →
    ∀ im : IndentManager, 0 ≤ im.level →
    ((runProg p im).2).level = im.level := by
  intro p
  induction p with
  | nil => intro _ im _; rfl
  | err => intro _ im _; rfl
  | seq p q ihp ihq =>
    intro h im him
    rw [goodProg, Bool.and_eq_true] at h
    have hp := ihp h.1 im him
    by_cases hb : (runProg p im).1 = true
    · have hq := ihq h.2 (runProg p im).2 (by rw [hp]; exact him)
      simp only [runProg]
      rw [if_pos hb]
      rw [hq, hp]
    · simp only [runProg]
      rw [if_neg hb]
      exact hp
  | manual p ih =>
    intro h im him
    rw [goodProg] at h
    have h1 : 0 ≤ im.indent.level := by
      simp [IndentManager.indent]; omega
    have hrun := errFree_run p h im.indent h1
    simp only [runProg, hrun, indent_dedent im him]
    simp
  | scope p ih =>
    intro h im him
    rw [goodProg] at h
    have h1 : 0 ≤ im.indent.level := by
      simp [IndentManager.indent]; omega
    have hp := ih h im.indent h1
    have hlv : (runProg p im.indent).2.level = im.level + 1 := by
      rw [hp]; rfl
    have hne : ¬ ((runProg p im.indent).2.level = 0) := by
      rw [hlv]; omega
    have hdd : (runProg p im.indent).2.dedent
        = .ok { (runProg p im.indent).2 with
                level := (runProg p im.indent).2.level - 1 } := by
      unfold IndentManager.dedent
      rw [if_neg hne]
    simp only [runProg, hdd]
    rw [hlv]
    omega

/-- C1 witness: a scoped block whose body runs a balanced manual pair and
then raises; the error propagates, yet the final depth is the initial
depth. -/
theorem claim_C1_witness :
    goodProg (Prog.scope (Prog.seq (Prog.manual Prog.nil) Prog.err)) = true
    ∧ ((runProg (Prog.scope (Prog.seq (Prog.manual Prog.nil) Prog.err))
        (IndentManager.mk "    " 0)).2).level = 0 :=
  ⟨by decide, claim_C1 _ (by decide) (IndentManager.mk "    " 0) (by decide)⟩

/-- C2: at depth 0 `dedent()` does raise — but a `NameError`, because the
`DedentException` it tries to raise is never defined in framework.py;
at depth 2 it succeeds and decrements to 1.  (The claim's
`DedentUnderflow` error kind matches the documented intent, not what the
code does.) -/
theorem claim_C2 :
    IndentManager.dedent (IndentManager.mk "    " 0)
      = .error (.nameError "DedentException")
    ∧ SourceBuilder.dedent (SourceBuilder.init "    ")
      = .error (.nameError "DedentException", SourceBuilder.init "    ")
    ∧ IndentManager.dedent (IndentManager.mk "    " 2)
      = .ok (IndentManager.mk "    " 1) := by
  refine ⟨rfl, rfl, ?_⟩
  rfl

/-- C3: `end()` returns the whole buffer and resets the depth without
clearing the buffer; writing `"a"`, `end()`, writing `"b"`, `end()`
returns `"ab"` the second time. -/
theorem claim_C3 :
    (∀ sb : SourceBuilder,
      sb.end_ = (sb.out, { out := sb.out, indent := sb.indent.reset }))
    ∧ ((((((SourceBuilder.init "    ").write "a").end_).2).write "b").end_).1
        = "ab" := by
  refine ⟨fun sb => rfl, ?_⟩
  decide

/-- C4 counterexample: with `delimiter = "###"`, `width = 8`, depth 0,
the single word `"abcdefghij"` (no whitespace, no hyphen) enters
multi-line mode and is emitted as the two segments `"abcdefgh"` and
`"ij"` — the wrap splits a word; and `"foo-bar"` wrapped to width 5 is
broken at the hyphen into `"foo-"` and `"bar"` — the wrap breaks on
hyphens. -/
theorem claim_C4_counterexample :
    wrapPy 8 "abcdefghij" = .ok ["abcdefgh", "ij"]
    ∧ (∀ c ∈ "abcdefghij".data, ¬ pyIsStrSpace c ∧ c ≠ '-')
    ∧ PySourceBuilder.docstring "abcdefghij" "###" 8 (SourceBuilder.init "    ")
        = .ok { out := "###\nabcdefgh\nij\n\n###\n",
                indent := { indent_with := "    ", level := 0 } }
    ∧ "abcdefgh" ≠ "abcdefghij"
    ∧ wrapPy 5 "foo-bar" = .ok ["foo-", "bar"] := by
  exact ⟨rfl, by decide, rfl, by decide, rfl⟩

/-- C4 (amended): every segment emitted by the wrap used in multi-line
doc-comment mode has length at most the wrap width (the wrap fails with
`ValueError` instead when the width is not positive); words longer than
the width may be split and hyphenated words may be broken after a
hyphen. -/
theorem claim_C4 : ∀ (w : Int) (text : String) (ls : List String),
    wrapPy w text = .ok ls → ∀ s ∈ ls, (s.length : Int) ≤ w := by
  intro w text ls h s hs
  unfold wrapPy at h
  by_cases hw : w ≤ 0
  · rw [if_pos hw] at h; cases h
  · rw [if_neg hw] at h
    injection h with h
    subst h
    rcases List.mem_map.mp hs with ⟨l, hl, rfl⟩
    have hb := wrapLoop_len w.toNat _ _ _ l hl
    rw [String.length_mk]
    omega

/-- C4 witness: a wrap that succeeds, with every segment within the
width. -/
theorem claim_C4_witness :
    wrapPy 8 "ab cd" = .ok ["ab cd"] ∧ (("ab cd".length : Int) ≤ 8) :=
  ⟨rfl, claim_C4 8 "ab cd" ["ab cd"] rfl "ab cd" (by decide)⟩

/-- C5: `block(header, blank_lines_before)` writes the blank lines, then
the header at the depth in force before the block, runs the body one
level deeper, and restores the prior depth on exit; on a fresh builder
with a 4-space unit, `block("define:", 1)` containing one
`writeln("return 1")` yields exactly `"\ndefine:\n    return 1\n"`. -/
theorem claim_C5 :
    (∀ (sb : SourceBuilder) (header : String) (n : Nat)
        (body : SourceBuilder → BResult) (sb3 : SourceBuilder),
      0 ≤ sb.indent.level → header ≠ "" →
      body { (nBlank n sb).writeln header with
             indent := ((nBlank n sb).writeln header).indent.indent } = .ok sb3 →
      sb3.indent.level = sb.indent.level + 1 →
      PySourceBuilder.block header n body sb
          = .ok { sb3 with indent := { sb3.indent with level := sb.indent.level } }
      ∧ ((nBlank n sb).writeln header).out
          = sb.out ++ strMul "\n" n ++ sb.indent.str ++ header ++ "\n"
      ∧ ((nBlank n sb).writeln header).indent = sb.indent)
    ∧ PySourceBuilder.block "define:" 1 (fun b => .ok (b.writeln "return 1"))
        (SourceBuilder.init "    ")
        = .ok { out := "\ndefine:\n    return 1\n",
                indent := { indent_with := "    ", level := 0 } } := by
  constructor
  · intro sb header n body sb3 hlev hh hbody hl
    refine ⟨?_, ?_, ?_⟩
    · have hne : ¬ (sb3.indent.level = 0) := by omega
      have hdd : sb3.indent.dedent
          = .ok { sb3.indent with level := sb3.indent.level - 1 } := by
        unfold IndentManager.dedent
        rw [if_neg hne]
      simp only [PySourceBuilder.block, hbody, hdd]
      rw [hl]
      simp
    · rw [SourceBuilder.writeln]
      simp only [hh, if_neg, ite_false]
      rw [SourceBuilder.write, nBlank_out, nBlank_indent]
    · rw [writeln_indent, nBlank_indent]
  · rfl

/-- C5 witness: the general statement applied to the end-to-end
scenario. -/
theorem claim_C5_witness :
    PySourceBuilder.block "define:" 1 (fun b => .ok (b.writeln "return 1"))
        (SourceBuilder.init "    ")
      = .ok { out := "\ndefine:\n    return 1\n",
              indent := { indent_with := "    ", level := 0 } } := by
  have h := claim_C5.1 (SourceBuilder.init "    ") "define:" 1
    (fun b => .ok (b.writeln "return 1")) _ (by decide) (by decide) rfl
    (by decide)
  exact h.1.trans rfl

/-- C6: `writeln(text)` with non-empty text appends the indent prefix,
the text, and one newline; with empty text it appends exactly one
newline and no indent prefix at every depth; at depth 2 with a 4-space
unit, `writeln("x")` appends exactly eight spaces, `x`, newline. -/
theorem claim_C6 :
    (∀ (sb : SourceBuilder) (code : String),
      (sb.writeln code).out =
        if code = "" then sb.out ++ "\n"
        else sb.out ++ sb.indent.str ++ code ++ "\n")
    ∧ ((SourceBuilder.mk "" (IndentManager.mk "    " 2)).writeln "x").out
        = "        x\n" := by
  constructor
  · intro sb code
    by_cases h : code = "" <;>
      simp [SourceBuilder.writeln, SourceBuilder.write, h]
  · rfl

/-- C7: when the normalized text is a single line and
`len(delimiter)*2 + len(line) < max_width`, `docstring` emits exactly
one line, `delimiter + line + delimiter`, through `writeln`. -/
theorem claim_C7 :
    (∀ (doc delimiter : String) (width : Int) (sb : SourceBuilder),
      (pySplitlines (pyStrip (dedentPy doc))).length = 1 →
      ((pyStrip (dedentPy doc)).length : Int)
          < (width - (sb.indent.str.length : Int)) - (delimiter.length : Int) * 2 →
      PySourceBuilder.docstring doc delimiter width sb
          = .ok (sb.writeln (delimiter ++ pyStrip (dedentPy doc) ++ delimiter)))
    ∧ PySourceBuilder.docstring "Hello world" "###" 72 (SourceBuilder.init "    ")
        = .ok { out := "###Hello world###\n",
                indent := { indent_with := "    ", level := 0 } } := by
  constructor
  · intro doc delimiter width sb h1 h2
    simp only [PySourceBuilder.docstring]
    rw [if_pos ⟨h1, h2⟩]
  · rfl

/-- C7 witness: the single-line condition holds for
`doc_comment("Hello world", "###", 72)` at depth 0, and one line is
emitted. -/
theorem claim_C7_witness :
    PySourceBuilder.docstring "Hello world" "###" 72 (SourceBuilder.init "    ")
      = .ok ((SourceBuilder.init "    ").writeln
          ("###" ++ pyStrip (dedentPy "Hello world") ++ "###")) :=
  claim_C7.1 "Hello world" "###" 72 (SourceBuilder.init "    ")
    (by decide) (by decide)

/-- C8: depth stays a non-negative integer under every operation —
`indent`, `reset`, `dedent` (which refuses at 0 and decrements above 0),
`write`/`writeln` (which do not touch depth at all), `end`, `truncate` —
and scope enter/exit are `indent`/`dedent`. -/
theorem claim_C8 : ∀ (im : IndentManager) (sb : SourceBuilder) (code : String),
    0 ≤ im.level → 0 ≤ sb.indent.level →
    0 ≤ im.indent.level
    ∧ im.reset.level = 0
    ∧ (0 < im.level →
        im.dedent = .ok { im with level := im.level - 1 } ∧ 0 ≤ im.level - 1)
    ∧ (im.level = 0 → im.dedent = .error (.nameError "DedentException"))
    ∧ (sb.write code).indent = sb.indent
    ∧ (sb.writeln code).indent = sb.indent
    ∧ (sb.end_.2).indent.level = 0
    ∧ sb.truncate.indent.level = 0 := by
  intro im sb code him hsb
  refine ⟨?_, rfl, ?_, ?_, rfl, writeln_indent sb code, rfl, rfl⟩
  · simp [IndentManager.indent]; omega
  · intro h0
    constructor
    · unfold IndentManager.dedent
      rw [if_neg (by omega)]
    · omega
  · intro h0
    unfold IndentManager.dedent
    rw [if_pos h0]

/-- C8 witness: the preservation facts at a concrete manager and
builder. -/
theorem claim_C8_witness :
    0 ≤ (IndentManager.mk "    " 1).indent.level
    ∧ (IndentManager.mk "    " 1).reset.level = 0
    ∧ (SourceBuilder.init "    ").truncate.indent.level = 0 := by
  have h := claim_C8 (IndentManager.mk "    " 1) (SourceBuilder.init "    ")
    "x" (by decide) (by decide)
  exact ⟨h.1, h.2.1, h.2.2.2.2.2.2.2⟩

/-- C9: `truncate()` discards the buffer and resets the depth, returning
the builder to its initial state; `truncate()` then `end()` yields the
empty string at depth 0. -/
theorem claim_C9 : ∀ sb : SourceBuilder,
    sb.truncate = SourceBuilder.init sb.indent.indent_with
    ∧ (sb.truncate.end_).1 = ""
    ∧ sb.truncate.indent.level = 0 :=
  fun _ => ⟨rfl, rfl, rfl⟩

/-- C10: `write`, `writeln` and `docstring` never modify the indent
depth — whether `docstring` returns normally or propagates a
`ValueError`, the `IndentManager` after the call is the one before. -/
theorem claim_C10 : ∀ (sb : SourceBuilder) (code doc delimiter : String)
    (width : Int),
    (sb.write code).indent = sb.indent
    ∧ (sb.writeln code).indent = sb.indent
    ∧ (stateOf (PySourceBuilder.docstring doc delimiter width sb)).indent
        = sb.indent := by
  intro sb code doc delimiter width
  refine ⟨rfl, writeln_indent sb code, ?_⟩
  simp only [PySourceBuilder.docstring]
  by_cases hc : (pySplitlines (pyStrip (dedentPy doc))).length = 1
      ∧ ((pyStrip (dedentPy doc)).length : Int)
        < width - (sb.indent.str.length : Int) - (delimiter.length : Int) * 2
  · rw [if_pos hc]
    exact writeln_indent sb _
  · rw [if_neg hc]
    cases hgo : docstringGo (width - (sb.indent.str.length : Int))
        (pySplitlines (pyStrip (dedentPy doc))) (sb.writeln delimiter) with
    | error es =>
      have h := docstringGo_indent (width - (sb.indent.str.length : Int))
        (pySplitlines (pyStrip (dedentPy doc))) (sb.writeln delimiter)
      rw [hgo] at h
      rw [writeln_indent] at h
      exact h
    | ok sb1 =>
      have h := docstringGo_indent (width - (sb.indent.str.length : Int))
        (pySplitlines (pyStrip (dedentPy doc))) (sb.writeln delimiter)
      rw [hgo] at h
      rw [writeln_indent] at h
      show ((sb1.writeln "").writeln delimiter).indent = sb.indent
      rw [writeln_indent, writeln_indent]
      exact h
